import Mathlib

/-!
Verification of the primitive-cell reduction module (`spg_mapping.py`) of the
`seekpath` repository: the crystal-family classification `get_crystal_family`,
the Bravais-lattice transformation-matrix table `get_P_matrix`, and the
primitive-cell reduction `get_primitive`.

Numeric values (lattice entries, fractional coordinates, matrix entries and
the tolerance) are embedded as exact rationals; Python sequences become Lean
lists; raised exceptions become `Except` errors.
-/

/-- A coordinate triple (a numpy 1-d array of length 3). -/
abbrev Vec3 := List ℚ

/-- A 3×3 matrix as a list of rows (a numpy 2-d array). -/
abbrev Mat3 := List Vec3

/-- Dot product of two rows (numpy inner product). -/
def dot (r v : List ℚ) : ℚ := (List.zipWith (· * ·) r v).sum

/-- The j-th column of a matrix. -/
def col (M : Mat3) (j : ℕ) : List ℚ := M.map (fun r => r.getD j 0)

/-- numpy `M.T` for a 3×3 matrix. -/
def transpose3 (M : Mat3) : Mat3 := [col M 0, col M 1, col M 2]

/-- numpy `np.dot(A, B)` for 3×3 matrices. -/
def matMul (A B : Mat3) : Mat3 :=
  A.map (fun r => [dot r (col B 0), dot r (col B 1), dot r (col B 2)])

/-- numpy `np.dot(M, v)` for a 3×3 matrix and a coordinate triple. -/
def matVec (M : Mat3) (v : Vec3) : Vec3 := M.map (fun r => dot r v)

/-- Entry (i, j) of a matrix. -/
def mget (M : Mat3) (i j : ℕ) : ℚ := (M.getD i []).getD j 0

/-- Determinant of a 3×3 matrix (cofactor expansion along the first row);
embeds `np.linalg.det` on the exact table matrices. -/
def det3 (M : Mat3) : ℚ :=
  mget M 0 0 * (mget M 1 1 * mget M 2 2 - mget M 1 2 * mget M 2 1)
  - mget M 0 1 * (mget M 1 0 * mget M 2 2 - mget M 1 2 * mget M 2 0)
  + mget M 0 2 * (mget M 1 0 * mget M 2 1 - mget M 1 1 * mget M 2 0)

/-- Python `int(...)` on a rational value: truncation toward zero. -/
def pytrunc (q : ℚ) : ℤ := if q < 0 then ⌈q⌉ else ⌊q⌋

/-- Scalar multiple of a matrix (numpy `c * M`). -/
def smulM (c : ℚ) (M : Mat3) : Mat3 := M.map (fun r => r.map (fun x => c * x))

/-- The 3×3 identity matrix. -/
def id3 : Mat3 := [[1,0,0],[0,1,0],[0,0,1]]

/-- `get_crystal_family(number)`: crystal-family letter from the spacegroup
number, with the source's range checks (`ValueError` → `Except.error`). -/
def get_crystal_family (number : ℤ) : Except String String :=
  if number < 1 then .error "number should be >= 1"
  else if number ≤ 2 then .ok "a"    -- triclinic
  else if number ≤ 15 then .ok "m"   -- monoclinic
  else if number ≤ 74 then .ok "o"   -- orthorhombic
  else if number ≤ 142 then .ok "t"  -- tetragonal
  else if number ≤ 194 then .ok "h"  -- trigonal + hexagonal
  else if number ≤ 230 then .ok "c"  -- cubic
  else .error "number should be <= 230"

/-- `get_P_matrix(bravais_lattice)`: the (P, invP) pair from Table 3 of the
HKOT paper, selected by the Bravais lattice symbol; unknown symbols raise
`ValueError`. -/
def get_P_matrix (bravais_lattice : String) : Except String (Mat3 × Mat3) :=
  if bravais_lattice ∈ ["cP", "tP", "hP", "oP", "mP"] then
    .ok ([[1,0,0],[0,1,0],[0,0,1]],
         [[1,0,0],[0,1,0],[0,0,1]])
  else if bravais_lattice ∈ ["cF", "oF"] then
    .ok (smulM (1/2) [[0,1,1],[1,0,1],[1,1,0]],
         [[-1,1,1],[1,-1,1],[1,1,-1]])
  else if bravais_lattice ∈ ["cI", "tI", "oI"] then
    .ok (smulM (1/2) [[-1,1,1],[1,-1,1],[1,1,-1]],
         [[0,1,1],[1,0,1],[1,1,0]])
  else if bravais_lattice = "hR" then
    .ok (smulM (1/3) [[2,-1,-1],[1,1,-2],[1,1,1]],
         [[1,0,1],[-1,1,1],[0,-1,1]])
  else if bravais_lattice = "oC" then
    .ok (smulM (1/2) [[1,1,0],[-1,1,0],[0,0,2]],
         [[1,-1,0],[1,1,0],[0,0,1]])
  else if bravais_lattice = "oA" then
    .ok (smulM (1/2) [[0,0,2],[1,1,0],[-1,1,0]],
         [[0,1,-1],[0,1,1],[1,0,0]])
  else if bravais_lattice = "mC" then
    .ok (smulM (1/2) [[1,-1,0],[1,1,0],[0,0,2]],
         [[1,1,0],[-1,1,0],[0,0,1]])
  else
    .error ("Invalid bravais_lattice " ++ bravais_lattice)

/-- The tolerance used by `get_primitive` (`threshold = 1.e-6`). -/
def threshold : ℚ := 1 / 1000000

/-- Python `x % 1.0` (result in `[0, 1)`), exact over the rationals. -/
def pymod1 (x : ℚ) : ℚ := x - ⌊x⌋

/-- One-axis coincidence test of `get_primitive`:
`abs(((d + 0.5) % 1.) - 0.5) < threshold` for a coordinate difference `d`. -/
def axisMatch (d : ℚ) : Bool := decide (|pymod1 (d + 1/2) - 1/2| < threshold)

/-- The i-th position of a position list (numpy row access). -/
def getPos (ps : List Vec3) (i : ℕ) : Vec3 := ps.getD i []

/-- The k-th coordinate of a position. -/
def coord (v : Vec3) (k : ℕ) : ℚ := v.getD k 0

/-- Entry (i, j) of `all_match`: atoms i and j coincide on all three axes. -/
def pairMatch (ps : List Vec3) (i j : ℕ) : Bool :=
  axisMatch (coord (getPos ps j) 0 - coord (getPos ps i) 0) &&
  axisMatch (coord (getPos ps j) 1 - coord (getPos ps i) 1) &&
  axisMatch (coord (getPos ps j) 2 - coord (getPos ps i) 2)

/-- Row i of `all_match` converted to the tuple of matching indices
(`tuple(np.arange(all_match.shape[0])[row])`). -/
def matchRow (ps : List Vec3) (i : ℕ) : List ℕ :=
  (List.range ps.length).filter (fun j => pairMatch ps i j)

/-- `group_of_equivalent_atoms`: one index tuple per atom. -/
def equivRows (ps : List Vec3) : List (List ℕ) :=
  (List.range ps.length).map (fun i => matchRow ps i)

/-- Boolean lexicographic order on index tuples (Python tuple comparison). -/
def lexLe : List ℕ → List ℕ → Bool
  | [], _ => true
  | _ :: _, [] => false
  | a :: as, b :: bs => if a < b then true else if b < a then false else lexLe as bs

/-- Insert into a lexicographically sorted list of index tuples. -/
def insertLex (g : List ℕ) : List (List ℕ) → List (List ℕ)
  | [] => [g]
  | h :: t => if lexLe g h then g :: h :: t else h :: insertLex g t

/-- Python `sorted` on a list of index tuples (insertion sort by `lexLe`). -/
def sortLex (l : List (List ℕ)) : List (List ℕ) := l.foldr insertLex []

/-- The errors `get_primitive` can raise.  `attributeError` embeds the
`AttributeError` raised at `wrong_count.keys()` (a list has no `keys`
method) while the group-size `ValueError` message is being built;
`typeMismatch` carries the offending groups listed in the type-check
`ValueError`; `invalidBravais` propagates the `ValueError` of
`get_P_matrix`. -/
inductive PrimError where
  | invalidBravais (msg : String)
  | attributeError
  | typeMismatch (groups : List (List ℕ))
deriving DecidableEq

/-- `prim_lattice = np.dot(lattice.T, P).T` : `(a_P, b_P, c_P) = (a,b,c) P`. -/
def primLattice (lattice P : Mat3) : Mat3 :=
  transpose3 (matMul (transpose3 lattice) P)

/-- `prim_positions = np.dot(invP, positions.T).T` : row i is `invP · pos_i`. -/
def primPositions (invP : Mat3) (positions : List Vec3) : List Vec3 :=
  positions.map (matVec invP)

/-- `wrong_count`: the distinct index tuples whose multiplicity in
`group_of_equivalent_atoms` differs from the volume ratio. -/
def wrongCount (rows : List (List ℕ)) (ratio : ℤ) : List (List ℕ) :=
  rows.dedup.filter (fun g => decide ((rows.count g : ℤ) ≠ ratio))

/-- `groups = sorted(group_count.keys())`. -/
def sortedGroups (rows : List (List ℕ)) : List (List ℕ) :=
  sortLex rows.dedup

/-- The groups whose atoms do not all share one type
(`problematic_groups_idx` mapped back to the groups, as in the error
message). -/
def problematicGroups (types : List ℕ) (groups : List (List ℕ)) :
    List (List ℕ) :=
  groups.filter (fun g => decide (((g.map (fun i => types.getD i 0)).dedup).length ≠ 1))

/-- `chosen_idx = np.array([group[0] for group in groups])`. -/
def chosenIdx (groups : List (List ℕ)) : List ℕ :=
  groups.map (fun g => g.headD 0)

/-- `get_primitive(structure, bravais_lattice)`: primitive cell from a
standard conventional cell.  `s = (lattice, positions, types)`; atom types
are embedded as natural-number labels. -/
def get_primitive (s : Mat3 × List Vec3 × List ℕ) (bravais_lattice : String) :
    Except PrimError ((Mat3 × List Vec3 × List ℕ) × (Mat3 × Mat3)) :=
  match get_P_matrix bravais_lattice with
  | .error m => .error (.invalidBravais m)
  | .ok (P, invP) =>
    if wrongCount (equivRows (primPositions invP s.2.1)) (pytrunc (det3 invP))
        ≠ [] then
      -- building the group-size ValueError message evaluates
      -- wrong_count.keys() on a list, which raises AttributeError instead
      .error .attributeError
    else if problematicGroups s.2.2
        (sortedGroups (equivRows (primPositions invP s.2.1))) ≠ [] then
      .error (.typeMismatch (problematicGroups s.2.2
        (sortedGroups (equivRows (primPositions invP s.2.1)))))
    else
      .ok ((primLattice s.1 P,
            (chosenIdx (sortedGroups (equivRows (primPositions invP s.2.1)))).map
              (fun i => (primPositions invP s.2.1).getD i []),
            (chosenIdx (sortedGroups (equivRows (primPositions invP s.2.1)))).map
              (fun i => s.2.2.getD i 0)),
           (P, invP))

/-- The 14 Bravais lattice symbols accepted by `get_P_matrix`. -/
def bravais_symbols : List String :=
  ["cP", "cF", "cI", "tP", "tI", "hP", "hR", "oP", "oF", "oI", "oC", "oA", "mP", "mC"]

/-- The distinct (P, invP) values taken by `get_P_matrix` over the 14 symbols. -/
def distinctPairs : List (Mat3 × Mat3) :=
  (bravais_symbols.filterMap (fun s => (get_P_matrix s).toOption)).dedup

/-- `det(invP)` of the pair stored for a symbol, when the symbol is valid. -/
def detOfSymbol (s : String) : Option ℚ :=
  (get_P_matrix s).toOption.map (fun pr => det3 pr.2)

/-- Whether an outcome of `get_primitive` is the type-mismatch error. -/
def isTypeMismatchError {α : Type} : Except PrimError α → Bool
  | .error (.typeMismatch _) => true
  | _ => false

/-- Whether an `Except` outcome is a success. -/
def exceptIsOk {ε α : Type} : Except ε α → Bool
  | .ok _ => true
  | .error _ => false

instance {ε α : Type} [DecidableEq ε] [DecidableEq α] : DecidableEq (Except ε α) :=
  fun a b =>
    match a, b with
    | .ok x, .ok y =>
      if h : x = y then .isTrue (by rw [h]) else .isFalse (by intro hc; cases hc; exact h rfl)
    | .error e, .error f =>
      if h : e = f then .isTrue (by rw [h]) else .isFalse (by intro hc; cases hc; exact h rfl)
    | .ok _, .error _ => .isFalse (by intro hc; cases hc)
    | .error _, .ok _ => .isFalse (by intro hc; cases hc)

/-- Entries of P allowed by the spec sentence behind claim C3. -/
def allowedPSpec : List ℚ := [0, 1, -1, 1/2, -1/2, 1/3, -1/3]

/-- Every entry of a matrix belongs to the given set of values. -/
def entriesIn (M : Mat3) (S : List ℚ) : Bool :=
  M.all (fun row => row.all (fun x => x ∈ S))

/-- C1: on the conventional FCC cell (cubic lattice of edge 4, atoms at
(0,0,0), (1/2,1/2,0), (1/2,0,1/2), (0,1/2,1/2), one shared type),
`get_primitive` with symbol cF succeeds, the volume ratio is 4, and the
primitive structure has exactly one atom, at (0,0,0), with the documented
cF matrix pair. -/
theorem c1_fcc_reduction :
    get_primitive ([[4,0,0],[0,4,0],[0,0,4]],
        [[0,0,0],[1/2,1/2,0],[1/2,0,1/2],[0,1/2,1/2]], [0,0,0,0]) "cF"
      = .ok (([[0,2,2],[2,0,2],[2,2,0]], [[0,0,0]], [0]),
             ([[0,1/2,1/2],[1/2,0,1/2],[1/2,1/2,0]],
              [[-1,1,1],[1,-1,1],[1,1,-1]]))
    ∧ pytrunc (det3 [[-1,1,1],[1,-1,1],[1,1,-1]]) = 4 :=
  of_decide_eq_true (by with_unfolding_all rfl)

/-- C2 counterexample: the claim says det(invP) = 2 for cF, but the cF pair
of `get_P_matrix` has det(invP) = 4. -/
theorem c2_det_counterexample :
    get_P_matrix "cF" = .ok ([[0,1/2,1/2],[1/2,0,1/2],[1/2,1/2,0]],
                             [[-1,1,1],[1,-1,1],[1,1,-1]])
    ∧ det3 [[-1,1,1],[1,-1,1],[1,1,-1]] = 4 ∧ (4 : ℚ) ≠ 2 :=
  of_decide_eq_true (by with_unfolding_all rfl)

/-- C2 (amended): det(invP) is exactly 1 for cP/tP/hP/oP/mP, 2 for
cI/tI/oI/oC/oA/mC, 4 for cF/oF, 3 for hR, and for every valid symbol it
lies in {1, 2, 3, 4}. -/
theorem c2_det_table :
    detOfSymbol "cP" = some 1 ∧ detOfSymbol "tP" = some 1
    ∧ detOfSymbol "hP" = some 1 ∧ detOfSymbol "oP" = some 1
    ∧ detOfSymbol "mP" = some 1
    ∧ detOfSymbol "cI" = some 2 ∧ detOfSymbol "tI" = some 2
    ∧ detOfSymbol "oI" = some 2
    ∧ detOfSymbol "cF" = some 4 ∧ detOfSymbol "oF" = some 4
    ∧ detOfSymbol "oC" = some 2 ∧ detOfSymbol "oA" = some 2
    ∧ detOfSymbol "mC" = some 2
    ∧ detOfSymbol "hR" = some 3
    ∧ (bravais_symbols.map detOfSymbol).all
        (fun d => d ∈ [some (1:ℚ), some 2, some 3, some 4]) = true :=
  of_decide_eq_true (by with_unfolding_all rfl)

/-- C3 counterexample: the claim restricts P entries to
{0, ±1, ±1/2, ±1/3}, but the hR matrix P has entry 2/3 at position (0,0). -/
theorem c3_entries_counterexample :
    (match get_P_matrix "hR" with | .ok (P, _) => mget P 0 0 | .error _ => 0) = 2/3
    ∧ (2/3 : ℚ) ∉ allowedPSpec :=
  of_decide_eq_true (by with_unfolding_all rfl)

/-- C3 (amended): for every valid symbol, every entry of P lies in
{0, ±1, ±1/2, ±1/3, ±2/3} and every entry of invP lies in {-1, 0, 1}. -/
theorem c3_entries (s : String) (P invP : Mat3)
    (h : get_P_matrix s = .ok (P, invP)) :
    entriesIn P [0, 1, -1, 1/2, -1/2, 1/3, -1/3, 2/3, -2/3] = true
    ∧ entriesIn invP [-1, 0, 1] = true := by
  unfold get_P_matrix at h
  repeat' split at h
  all_goals first
    | (simp only [Except.ok.injEq, Prod.mk.injEq] at h;
       obtain ⟨rfl, rfl⟩ := h;
       exact of_decide_eq_true (by with_unfolding_all rfl))
    | exact Except.noConfusion h

/-- Witness for C3: the theorem applied to the cF pair. -/
theorem c3_entries_witness :
    entriesIn [[0,1/2,1/2],[1/2,0,1/2],[1/2,1/2,0]]
        [0, 1, -1, 1/2, -1/2, 1/3, -1/3, 2/3, -2/3] = true
    ∧ entriesIn [[-1,1,1],[1,-1,1],[1,1,-1]] [-1, 0, 1] = true :=
  c3_entries "cF" _ _ (of_decide_eq_true (by with_unfolding_all rfl))

/-- C4: for every valid symbol the returned pair satisfies
P · invP = invP · P = identity. -/
theorem c4_inverse_pair (s : String) (P invP : Mat3)
    (h : get_P_matrix s = .ok (P, invP)) :
    matMul P invP = id3 ∧ matMul invP P = id3 := by
  unfold get_P_matrix at h
  repeat' split at h
  all_goals first
    | (simp only [Except.ok.injEq, Prod.mk.injEq] at h;
       obtain ⟨rfl, rfl⟩ := h;
       exact of_decide_eq_true (by with_unfolding_all rfl))
    | exact Except.noConfusion h

/-- Witness for C4: the theorem applied to the hR pair. -/
theorem c4_inverse_pair_witness :
    matMul (smulM (1/3) [[2,-1,-1],[1,1,-2],[1,1,1]])
        [[1,0,1],[-1,1,1],[0,-1,1]] = id3
    ∧ matMul [[1,0,1],[-1,1,1],[0,-1,1]]
        (smulM (1/3) [[2,-1,-1],[1,1,-2],[1,1,1]]) = id3 :=
  c4_inverse_pair "hR" _ _ (of_decide_eq_true (by with_unfolding_all rfl))

/-- C5 counterexample: the table has 7 distinct (P, invP) values over the 14
Bravais symbols (so 7 symbol groups), not 11 as the claim states. -/
theorem c5_group_count_counterexample :
    distinctPairs.length = 7 ∧ (7 : ℕ) ≠ 11 :=
  of_decide_eq_true (by with_unfolding_all rfl)

/-- C5 (amended): `get_P_matrix` is a constant lookup with 7 distinct
matrix-pair values over the 14 symbols, cP/tP/hP/oP/mP all map to the
identity pair, every one of the 14 symbols succeeds, and every other
string fails with the invalid-Bravais error. -/
theorem c5_lookup_table :
    distinctPairs.length = 7
    ∧ (∀ s : String, s ∉ bravais_symbols →
        get_P_matrix s = .error ("Invalid bravais_lattice " ++ s))
    ∧ get_P_matrix "cP" = .ok (id3, id3) ∧ get_P_matrix "tP" = .ok (id3, id3)
    ∧ get_P_matrix "hP" = .ok (id3, id3) ∧ get_P_matrix "oP" = .ok (id3, id3)
    ∧ get_P_matrix "mP" = .ok (id3, id3)
    ∧ bravais_symbols.all (fun s => exceptIsOk (get_P_matrix s)) = true := by
  refine ⟨of_decide_eq_true (by with_unfolding_all rfl), ?_,
    of_decide_eq_true (by with_unfolding_all rfl),
    of_decide_eq_true (by with_unfolding_all rfl),
    of_decide_eq_true (by with_unfolding_all rfl),
    of_decide_eq_true (by with_unfolding_all rfl),
    of_decide_eq_true (by with_unfolding_all rfl),
    of_decide_eq_true (by with_unfolding_all rfl)⟩
  intro s h
  simp only [bravais_symbols, List.mem_cons, List.not_mem_nil, or_false,
    not_or] at h
  obtain ⟨h1, h2, h3, h4, h5, h6, h7, h8, h9, h10, h11, h12, h13, h14⟩ := h
  simp [get_P_matrix, h1, h2, h3, h4, h5, h6, h7, h8, h9, h10, h11, h12, h13,
    h14]

/-- Witness for C5: the quantified part applied to the string "xx". -/
theorem c5_lookup_table_witness :
    get_P_matrix "xx" = .error ("Invalid bravais_lattice " ++ "xx") :=
  c5_lookup_table.2.1 "xx" (by decide)

/-- C6: on a cP cell with two exactly coincident atoms of the same type
(group multiplicity 2 ≠ volume ratio 1), `get_primitive` fails, but with
the `AttributeError` raised while formatting the intended group-size
`ValueError` (the code calls `.keys()` on the list `wrong_count`), so the
error does not identify the offending groups. -/
theorem c6_group_size_attribute_error :
    get_primitive ([[1,0,0],[0,1,0],[0,0,1]], [[0,0,0],[0,0,0]], [0,0]) "cP"
      = .error .attributeError :=
  of_decide_eq_true (by with_unfolding_all rfl)

/-- C9: `get_crystal_family` maps [1,2] to "a" (triclinic), [3,15] to "m",
[16,74] to "o", [75,142] to "t", [143,194] to "h", [195,230] to "c", and
fails for every integer outside [1,230]. -/
theorem c9_crystal_family (n : ℤ) :
    ((1 ≤ n ∧ n ≤ 2) → get_crystal_family n = .ok "a")
    ∧ ((3 ≤ n ∧ n ≤ 15) → get_crystal_family n = .ok "m")
    ∧ ((16 ≤ n ∧ n ≤ 74) → get_crystal_family n = .ok "o")
    ∧ ((75 ≤ n ∧ n ≤ 142) → get_crystal_family n = .ok "t")
    ∧ ((143 ≤ n ∧ n ≤ 194) → get_crystal_family n = .ok "h")
    ∧ ((195 ≤ n ∧ n ≤ 230) → get_crystal_family n = .ok "c")
    ∧ ((n < 1 ∨ 230 < n) → exceptIsOk (get_crystal_family n) = false) := by
  unfold get_crystal_family
  refine ⟨?_, ?_, ?_, ?_, ?_, ?_, ?_⟩ <;> intro h
  · rw [if_neg (by omega), if_pos (by omega)]
  · rw [if_neg (by omega), if_neg (by omega), if_pos (by omega)]
  · rw [if_neg (by omega), if_neg (by omega), if_neg (by omega),
      if_pos (by omega)]
  · rw [if_neg (by omega), if_neg (by omega), if_neg (by omega),
      if_neg (by omega), if_pos (by omega)]
  · rw [if_neg (by omega), if_neg (by omega), if_neg (by omega),
      if_neg (by omega), if_neg (by omega), if_pos (by omega)]
  · rw [if_neg (by omega), if_neg (by omega), if_neg (by omega),
      if_neg (by omega), if_neg (by omega), if_neg (by omega),
      if_pos (by omega)]
  · rcases h with h | h
    · rw [if_pos (by omega)]; rfl
    · rw [if_neg (by omega), if_neg (by omega), if_neg (by omega),
        if_neg (by omega), if_neg (by omega), if_neg (by omega),
        if_neg (by omega)]; rfl

/-- Witness for C9: the theorem applied at 2, 3, 230, 0 and 231. -/
theorem c9_crystal_family_witness :
    get_crystal_family 2 = .ok "a" ∧ get_crystal_family 3 = .ok "m"
    ∧ get_crystal_family 230 = .ok "c"
    ∧ exceptIsOk (get_crystal_family 0) = false
    ∧ exceptIsOk (get_crystal_family 231) = false :=
  ⟨(c9_crystal_family 2).1 (by decide), (c9_crystal_family 3).2.1 (by decide),
   (c9_crystal_family 230).2.2.2.2.2.1 (by decide),
   (c9_crystal_family 0).2.2.2.2.2.2 (by decide),
   (c9_crystal_family 231).2.2.2.2.2.2 (by decide)⟩

theorem lexLe_total (a : List ℕ) : ∀ b, lexLe a b = true ∨ lexLe b a = true := by
  induction a with
  | nil => intro b; left; rfl
  | cons x xs ih =>
    intro b
    cases b with
    | nil => right; rfl
    | cons y ys =>
      by_cases h1 : x < y
      · left; simp [lexLe, h1]
      · by_cases h2 : y < x
        · right; simp [lexLe, h2]
        · rcases ih ys with h | h
          · left; simp [lexLe, h1, h2, h]
          · right; simp [lexLe, h1, h2, h]

theorem lexLe_trans :
    ∀ a b c : List ℕ, lexLe a b = true → lexLe b c = true → lexLe a c = true := by
  intro a
  induction a with
  | nil => intro b c _ _; rfl
  | cons x xs ih =>
    intro b c hab hbc
    cases b with
    | nil => simp [lexLe] at hab
    | cons y ys =>
      cases c with
      | nil => simp [lexLe] at hbc
      | cons z zs =>
        by_cases hxy : x < y
        · by_cases hyz : y < z
          · simp [lexLe, show x < z by omega]
          · by_cases hzy : z < y
            · simp [lexLe, hyz, hzy] at hbc
            · simp [lexLe, show x < z by omega]
        · by_cases hyx : y < x
          · simp [lexLe, hxy, hyx] at hab
          · by_cases hyz : y < z
            · simp [lexLe, show x < z by omega]
            · by_cases hzy : z < y
              · simp [lexLe, hyz, hzy] at hbc
              · have hxz : ¬ x < z := by omega
                have hzx : ¬ z < x := by omega
                simp only [lexLe, if_neg hxy, if_neg hyx, if_neg hyz,
                  if_neg hzy, if_neg hxz, if_neg hzx] at hab hbc ⊢
                exact ih ys zs hab hbc

theorem mem_insertLex {x g : List ℕ} :
    ∀ {l : List (List ℕ)}, x ∈ insertLex g l ↔ x = g ∨ x ∈ l := by
  intro l
  induction l with
  | nil => simp [insertLex]
  | cons h t ih =>
    by_cases hc : lexLe g h = true
    · simp only [insertLex, if_pos hc, List.mem_cons]
    · simp only [insertLex, if_neg hc, List.mem_cons, ih]
      tauto

theorem insertLex_perm (g : List ℕ) (l : List (List ℕ)) :
    List.Perm (insertLex g l) (g :: l) := by
  induction l with
  | nil => simp [insertLex]
  | cons h t ih =>
    by_cases hc : lexLe g h = true
    · simp [insertLex, hc]
    · simp only [insertLex, if_neg hc]
      exact ((ih.cons h).trans (List.Perm.swap g h t))

theorem sortLex_perm (l : List (List ℕ)) : List.Perm (sortLex l) l := by
  induction l with
  | nil => rfl
  | cons h t ih =>
    exact (insertLex_perm h (sortLex t)).trans (ih.cons h)

theorem pairwise_insertLex {g : List ℕ} :
    ∀ {l : List (List ℕ)}, List.Pairwise (fun a b => lexLe a b = true) l →
      List.Pairwise (fun a b => lexLe a b = true) (insertLex g l) := by
  intro l
  induction l with
  | nil => intro _; simp [insertLex]
  | cons h t ih =>
    intro hp
    rcases List.pairwise_cons.mp hp with ⟨hh, ht⟩
    by_cases hc : lexLe g h = true
    · rw [show insertLex g (h :: t) = g :: h :: t from by
        simp only [insertLex, if_pos hc]]
      refine List.pairwise_cons.mpr ⟨?_, hp⟩
      intro x hx
      rcases List.mem_cons.mp hx with rfl | hx
      · exact hc
      · exact lexLe_trans g h x hc (hh x hx)
    · rw [show insertLex g (h :: t) = h :: insertLex g t from by
        simp only [insertLex, if_neg hc]]
      refine List.pairwise_cons.mpr ⟨?_, ih ht⟩
      intro x hx
      rcases mem_insertLex.mp hx with hx | hx
      · subst hx
        rcases lexLe_total h x with hxh | hxh
        · exact hxh
        · exact absurd hxh hc
      · exact hh x hx

theorem sortLex_pairwise (l : List (List ℕ)) :
    List.Pairwise (fun a b => lexLe a b = true) (sortLex l) := by
  induction l with
  | nil => exact List.Pairwise.nil
  | cons h t ih => exact pairwise_insertLex ih

theorem sortLex_eq_self :
    ∀ {l : List (List ℕ)}, List.Pairwise (fun a b => lexLe a b = true) l →
      sortLex l = l := by
  intro l
  induction l with
  | nil => intro _; rfl
  | cons h t ih =>
    intro hp
    rcases List.pairwise_cons.mp hp with ⟨hh, ht⟩
    show insertLex h (sortLex t) = h :: t
    rw [ih ht]
    cases t with
    | nil => rfl
    | cons a t' =>
      show insertLex h (a :: t') = h :: a :: t'
      rw [insertLex, if_pos (hh a (List.mem_cons_self a t'))]

/-- C7 counterexample: atoms 0 and 1 coincide exactly but have different
types (0 and 1); with symbol cP the group-size check fires first (group
multiplicity 2 ≠ volume ratio 1), so `get_primitive` fails with the
AttributeError of the size branch, not with a TypeMismatch error. -/
theorem c7_typemismatch_counterexample :
    pairMatch [[0,0,0],[0,0,0]] 0 1 = true
    ∧ (0 : ℕ) ≠ 1
    ∧ get_primitive ([[1,0,0],[0,1,0],[0,0,1]], [[0,0,0],[0,0,0]], [0,1]) "cP"
        = .error .attributeError
    ∧ isTypeMismatchError
        (get_primitive ([[1,0,0],[0,1,0],[0,0,1]], [[0,0,0],[0,0,0]], [0,1]) "cP")
        = false :=
  ⟨of_decide_eq_true (by with_unfolding_all rfl),
   of_decide_eq_true (by with_unfolding_all rfl),
   of_decide_eq_true (by with_unfolding_all rfl),
   of_decide_eq_true (by with_unfolding_all rfl)⟩

/-- C7 (amended): when the Bravais symbol is valid, every equivalence-group
multiplicity equals the volume ratio (`wrong_count` empty), and some group
mixes atom types, `get_primitive` fails with the TypeMismatch error listing
exactly the offending groups, returning no structure. -/
theorem c7_type_mismatch (lattice : Mat3) (positions : List Vec3)
    (types : List ℕ) (b : String) (P invP : Mat3)
    (hb : get_P_matrix b = .ok (P, invP))
    (hsize : wrongCount (equivRows (primPositions invP positions))
        (pytrunc (det3 invP)) = [])
    (hbad : problematicGroups types
        (sortedGroups (equivRows (primPositions invP positions))) ≠ []) :
    get_primitive (lattice, positions, types) b
      = .error (.typeMismatch (problematicGroups types
          (sortedGroups (equivRows (primPositions invP positions))))) := by
  unfold get_primitive
  rw [hb]
  simp only [hsize, ne_eq, not_true_eq_false, not_false_eq_true, if_true,
    if_false, ite_not]
  rw [if_neg hbad]

/-- Witness for C7: the FCC cell with one atom of a different type. -/
theorem c7_type_mismatch_witness :
    get_primitive ([[4,0,0],[0,4,0],[0,0,4]],
        [[0,0,0],[1/2,1/2,0],[1/2,0,1/2],[0,1/2,1/2]], [0,0,0,1]) "cF"
      = .error (.typeMismatch [[0,1,2,3]]) := by
  have h := c7_type_mismatch [[4,0,0],[0,4,0],[0,0,4]]
      [[0,0,0],[1/2,1/2,0],[1/2,0,1/2],[0,1/2,1/2]] [0,0,0,1] "cF"
      (smulM (1/2) [[0,1,1],[1,0,1],[1,1,0]]) [[-1,1,1],[1,-1,1],[1,1,-1]]
      (of_decide_eq_true (by with_unfolding_all rfl))
      (of_decide_eq_true (by with_unfolding_all rfl))
      (of_decide_eq_true (by with_unfolding_all rfl))
  exact h.trans (of_decide_eq_true (by with_unfolding_all rfl))

theorem axisMatch_zero : axisMatch 0 = true :=
  of_decide_eq_true (by with_unfolding_all rfl)

theorem pairMatch_self (ps : List Vec3) (i : ℕ) : pairMatch ps i i = true := by
  unfold pairMatch
  rw [sub_self, sub_self, sub_self, axisMatch_zero]
  rfl

theorem mem_matchRow_lt {ps : List Vec3} {i j : ℕ} (h : j ∈ matchRow ps i) :
    j < ps.length := by
  unfold matchRow at h
  exact List.mem_range.mp (List.mem_filter.mp h).1

theorem self_mem_matchRow {ps : List Vec3} {i : ℕ} (h : i < ps.length) :
    i ∈ matchRow ps i := by
  unfold matchRow
  exact List.mem_filter.mpr ⟨List.mem_range.mpr h, pairMatch_self ps i⟩

theorem matchRow_pairwise_lt (ps : List Vec3) (i : ℕ) :
    List.Pairwise (· < ·) (matchRow ps i) :=
  (List.pairwise_lt_range ps.length).filter _

theorem headD_le_of_pairwise_lt :
    ∀ {l : List ℕ}, List.Pairwise (· < ·) l → ∀ j ∈ l, l.headD 0 ≤ j := by
  intro l hl j hj
  cases l with
  | nil => cases hj
  | cons a t =>
    rcases List.mem_cons.mp hj with rfl | hj
    · exact le_refl _
    · exact le_of_lt ((List.pairwise_cons.mp hl).1 j hj)

theorem headD_mem {l : List ℕ} (h : l ≠ []) : l.headD 0 ∈ l := by
  cases l with
  | nil => exact absurd rfl h
  | cons a t => exact List.mem_cons_self a t

theorem mem_sortedGroups_iff {rows : List (List ℕ)} {g : List ℕ} :
    g ∈ sortedGroups rows ↔ g ∈ rows := by
  unfold sortedGroups
  rw [(sortLex_perm rows.dedup).mem_iff, List.mem_dedup]

theorem mem_equivRows {ps : List Vec3} {g : List ℕ} (h : g ∈ equivRows ps) :
    ∃ i, i < ps.length ∧ g = matchRow ps i := by
  unfold equivRows at h
  rcases List.mem_map.mp h with ⟨i, hi, hg⟩
  exact ⟨i, List.mem_range.mp hi, hg.symm⟩

theorem getD_map_of_lt {α β : Type} (f : α → β) (l : List α) (n : ℕ)
    (h : n < l.length) (d : β) (d' : α) :
    (l.map f).getD n d = f (l.getD n d') := by
  rw [List.getD_eq_getElem?_getD, List.getD_eq_getElem?_getD,
    List.getElem?_map, List.getElem?_eq_getElem h]
  simp

theorem get_primitive_ok_inv (s : Mat3 × List Vec3 × List ℕ) (b : String)
    (lat : Mat3) (ppos : List Vec3) (ptys : List ℕ) (P invP : Mat3)
    (h : get_primitive s b = .ok ((lat, ppos, ptys), (P, invP))) :
    get_P_matrix b = .ok (P, invP)
    ∧ wrongCount (equivRows (primPositions invP s.2.1)) (pytrunc (det3 invP)) = []
    ∧ problematicGroups s.2.2
        (sortedGroups (equivRows (primPositions invP s.2.1))) = []
    ∧ lat = primLattice s.1 P
    ∧ ppos = (chosenIdx (sortedGroups (equivRows (primPositions invP s.2.1)))).map
        (fun i => (primPositions invP s.2.1).getD i [])
    ∧ ptys = (chosenIdx (sortedGroups (equivRows (primPositions invP s.2.1)))).map
        (fun i => s.2.2.getD i 0) := by
  unfold get_primitive at h
  cases hpb : get_P_matrix b with
  | error m =>
    rw [hpb] at h
    exact Except.noConfusion h
  | ok pr =>
    obtain ⟨Pt, invPt⟩ := pr
    rw [hpb] at h
    split at h
    · exact Except.noConfusion h
    · rename_i hok
      simp only [Except.ok.injEq, Prod.mk.injEq] at hok
      obtain ⟨rfl, rfl⟩ := hok
      split at h
      · exact Except.noConfusion h
      · split at h
        · exact Except.noConfusion h
        · rename_i hw2 hp2
          simp only [Except.ok.injEq, Prod.mk.injEq] at h
          obtain ⟨⟨hlat, hppos, hptys⟩, rfl, rfl⟩ := h
          push_neg at hw2 hp2
          exact ⟨rfl, hw2, hp2, hlat.symm, hppos.symm, hptys.symm⟩

/-- C8: on success, the returned positions are, for each equivalence group in
ascending lexicographic order of the index tuples, exactly the
invP-transform of the original position of the group's smallest atom index
(no wrapping into [0,1) is applied), and the returned types are the types
of those representatives. -/
theorem c8_representative_selection (s : Mat3 × List Vec3 × List ℕ)
    (b : String) (lat : Mat3) (ppos : List Vec3) (ptys : List ℕ)
    (P invP : Mat3)
    (h : get_primitive s b = .ok ((lat, ppos, ptys), (P, invP))) :
    ppos = (sortedGroups (equivRows (primPositions invP s.2.1))).map
        (fun g => matVec invP (s.2.1.getD (g.headD 0) []))
    ∧ ptys = (sortedGroups (equivRows (primPositions invP s.2.1))).map
        (fun g => s.2.2.getD (g.headD 0) 0)
    ∧ List.Pairwise (fun g₁ g₂ => lexLe g₁ g₂ = true)
        (sortedGroups (equivRows (primPositions invP s.2.1)))
    ∧ ∀ g ∈ sortedGroups (equivRows (primPositions invP s.2.1)),
        g.headD 0 ∈ g ∧ ∀ j ∈ g, g.headD 0 ≤ j := by
  obtain ⟨-, -, -, -, hppos, hptys⟩ :=
    get_primitive_ok_inv s b lat ppos ptys P invP h
  have hmem : ∀ g ∈ sortedGroups (equivRows (primPositions invP s.2.1)),
      ∃ i, i < (primPositions invP s.2.1).length
        ∧ g = matchRow (primPositions invP s.2.1) i :=
    fun g hg => mem_equivRows (mem_sortedGroups_iff.mp hg)
  have hne : ∀ {i : ℕ}, i < (primPositions invP s.2.1).length →
      matchRow (primPositions invP s.2.1) i ≠ [] := by
    intro i hi hnil
    have hsm := self_mem_matchRow hi
    rw [hnil] at hsm
    cases hsm
  refine ⟨?_, ?_, sortLex_pairwise _, ?_⟩
  · rw [hppos]
    unfold chosenIdx
    rw [List.map_map]
    refine List.map_congr_left ?_
    intro g hg
    obtain ⟨i, hi, rfl⟩ := hmem g hg
    have hlt : (matchRow (primPositions invP s.2.1) i).headD 0
        < (primPositions invP s.2.1).length :=
      mem_matchRow_lt (headD_mem (hne hi))
    have hlt2 : (matchRow (primPositions invP s.2.1) i).headD 0
        < s.2.1.length := by
      simpa [primPositions] using hlt
    simp only [Function.comp_apply]
    show (primPositions invP s.2.1).getD
        ((matchRow (primPositions invP s.2.1) i).headD 0) []
      = matVec invP (s.2.1.getD
        ((matchRow (primPositions invP s.2.1) i).headD 0) [])
    unfold primPositions
    exact getD_map_of_lt (matVec invP) s.2.1 _ hlt2 [] []
  · rw [hptys]
    unfold chosenIdx
    rw [List.map_map]
    rfl
  · intro g hg
    obtain ⟨i, hi, rfl⟩ := hmem g hg
    exact ⟨headD_mem (hne hi),
      headD_le_of_pairwise_lt (matchRow_pairwise_lt _ i)⟩

/-- Witness for C8: the FCC reduction, where the single sorted group is
(0,1,2,3), its representative is atom 0, and the returned position is
invP applied to that atom's original position. -/
theorem c8_representative_selection_witness :
    ([[(0:ℚ),0,0]] : List Vec3)
      = (sortedGroups (equivRows (primPositions [[-1,1,1],[1,-1,1],[1,1,-1]]
          [[0,0,0],[1/2,1/2,0],[1/2,0,1/2],[0,1/2,1/2]]))).map
          (fun g => matVec [[-1,1,1],[1,-1,1],[1,1,-1]]
            (([[0,0,0],[1/2,1/2,0],[1/2,0,1/2],[0,1/2,1/2]] : List Vec3).getD
              (g.headD 0) [])) :=
  (c8_representative_selection
      ([[4,0,0],[0,4,0],[0,0,4]],
        [[0,0,0],[1/2,1/2,0],[1/2,0,1/2],[0,1/2,1/2]], [0,0,0,0]) "cF"
      [[0,2,2],[2,0,2],[2,2,0]] [[0,0,0]] [0]
      (smulM (1/2) [[0,1,1],[1,0,1],[1,1,0]]) [[-1,1,1],[1,-1,1],[1,1,-1]]
      (of_decide_eq_true (by with_unfolding_all rfl))).1

theorem matVec_id3 : ∀ p : Vec3, p.length = 3 → matVec id3 p = p := by
  intro p hp
  rcases p with _ | ⟨x, _ | ⟨y, _ | ⟨z, _ | ⟨w, t⟩⟩⟩⟩ <;> simp at hp
  simp [matVec, id3, dot]

theorem primPositions_id3 : ∀ ps : List Vec3, (∀ p ∈ ps, p.length = 3) →
    primPositions id3 ps = ps := by
  intro ps h
  induction ps with
  | nil => rfl
  | cons p t ih =>
    show matVec id3 p :: t.map (matVec id3) = p :: t
    rw [matVec_id3 p (h p (List.mem_cons_self p t))]
    exact congrArg (p :: ·) (ih (fun q hq => h q (List.mem_cons_of_mem p hq)))

theorem primLattice_id3 (a b c d e f g h i : ℚ) :
    primLattice [[a,b,c],[d,e,f],[g,h,i]] id3 = [[a,b,c],[d,e,f],[g,h,i]] := by
  simp [primLattice, transpose3, matMul, col, dot, id3]

theorem filter_range_eq_singleton :
    ∀ (n : ℕ) (p : ℕ → Bool) (i : ℕ), i < n →
      (∀ j, j < n → (p j = true ↔ j = i)) →
      (List.range n).filter p = [i] := by
  intro n
  induction n with
  | zero => intro p i hi _; omega
  | succ m ih =>
    intro p i hi hp
    rw [List.range_succ, List.filter_append]
    by_cases him : i = m
    · subst him
      have h1 : (List.range i).filter p = [] := by
        rw [List.filter_eq_nil_iff]
        intro j hj hpj
        have hj2 := List.mem_range.mp hj
        have := (hp j (by omega)).mp hpj
        omega
      have h2 : p i = true := (hp i (by omega)).mpr rfl
      rw [h1]
      simp [h2]
    · have hi2 : i < m := by omega
      rw [ih p i hi2 (fun j hj => hp j (by omega))]
      have h2 : p m = false := by
        cases hpm : p m
        · rfl
        · exact absurd ((hp m (by omega)).mp hpm) (by omega)
      simp [h2]

theorem equivRows_of_separated (ps : List Vec3)
    (hsep : ∀ i j, i < ps.length → j < ps.length → i ≠ j →
      pairMatch ps i j = false) :
    equivRows ps = (List.range ps.length).map (fun i => [i]) := by
  unfold equivRows
  refine List.map_congr_left ?_
  intro i hi
  have hi2 := List.mem_range.mp hi
  unfold matchRow
  refine filter_range_eq_singleton ps.length _ i hi2 ?_
  intro j hj
  constructor
  · intro hpj
    by_contra hne
    rw [hsep i j hi2 hj (fun he => hne he.symm)] at hpj
    cases hpj
  · intro he
    rw [he]
    exact pairMatch_self ps i

theorem nodup_singletons (n : ℕ) :
    ((List.range n).map (fun i => [i])).Nodup := by
  refine List.Nodup.map ?_ (List.nodup_range n)
  intro a b hab
  injection hab

theorem sortLex_singletons (n : ℕ) :
    sortLex ((List.range n).map (fun i => [i]))
      = (List.range n).map (fun i => [i]) := by
  apply sortLex_eq_self
  refine List.Pairwise.map _ ?_ (List.pairwise_lt_range n)
  intro a b hab
  simp [lexLe, hab]

theorem map_getD_range {α : Type} (d : α) :
    ∀ l : List α, (List.range l.length).map (fun i => l.getD i d) = l := by
  intro l
  induction l with
  | nil => rfl
  | cons x t ih =>
    show (List.range (t.length + 1)).map (fun i => (x :: t).getD i d) = x :: t
    rw [List.range_succ_eq_map, List.map_cons, List.map_map]
    show (x :: t).getD 0 d
        :: (List.range t.length).map ((fun i => (x :: t).getD i d) ∘ Nat.succ)
      = x :: t
    exact congrArg (x :: ·) ih

theorem count_nodup_mem :
    ∀ (l : List (List ℕ)) (g : List ℕ), l.Nodup → g ∈ l → l.count g = 1 := by
  intro l
  induction l with
  | nil => intro g _ hg; cases hg
  | cons a t ih =>
    intro g hnd hg
    rw [List.count_cons]
    rcases List.mem_cons.mp hg with rfl | hg2
    · have h0 : t.count g = 0 :=
        List.count_eq_zero.mpr (List.nodup_cons.mp hnd).1
      simp [h0]
    · have h1 : t.count g = 1 := ih g (List.nodup_cons.mp hnd).2 hg2
      have hne : g ≠ a := by
        intro he
        subst he
        exact (List.nodup_cons.mp hnd).1 hg2
      simp [h1, hne]
      exact fun he => hne he.symm

/-- C10: for any structure whose atoms are pairwise non-coincident (some
axis fails the centered-modulo tolerance test for every pair of distinct
atoms) and any symbol in {cP, tP, hP, oP, mP}, `get_primitive` succeeds and
is the identity: it returns the input lattice, positions and types
unchanged and in order, with the matrix pair (I, I). -/
theorem c10_identity_on_primitive_symbols (l11 l12 l13 l21 l22 l23 l31 l32 l33 : ℚ)
    (positions : List Vec3) (types : List ℕ) (b : String)
    (hb : b ∈ ["cP", "tP", "hP", "oP", "mP"])
    (hpos3 : ∀ p ∈ positions, p.length = 3)
    (hty : types.length = positions.length)
    (hsep : ∀ i j, i < positions.length → j < positions.length → i ≠ j →
      pairMatch positions i j = false) :
    get_primitive
        ([[l11,l12,l13],[l21,l22,l23],[l31,l32,l33]], positions, types) b
      = .ok (([[l11,l12,l13],[l21,l22,l23],[l31,l32,l33]], positions, types),
             (id3, id3)) := by
  have hbP : get_P_matrix b = .ok (id3, id3) := by
    simp only [List.mem_cons, List.not_mem_nil, or_false] at hb
    rcases hb with rfl | rfl | rfl | rfl | rfl <;> with_unfolding_all rfl
  have hpp : primPositions id3 positions = positions :=
    primPositions_id3 positions hpos3
  have hrows : equivRows positions
      = (List.range positions.length).map (fun i => [i]) :=
    equivRows_of_separated positions hsep
  have hnd := nodup_singletons positions.length
  have hratio : pytrunc (det3 id3) = 1 := by with_unfolding_all rfl
  have hwrong : wrongCount ((List.range positions.length).map (fun i => [i])) 1
      = [] := by
    unfold wrongCount
    rw [List.dedup_eq_self.mpr hnd, List.filter_eq_nil_iff]
    intro g hg
    simp only [ne_eq, decide_eq_true_eq, not_not]
    have hc := count_nodup_mem ((List.range positions.length).map (fun i => [i]))
        g hnd hg
    exact_mod_cast hc
  have hsort : sortedGroups ((List.range positions.length).map (fun i => [i]))
      = (List.range positions.length).map (fun i => [i]) := by
    unfold sortedGroups
    rw [List.dedup_eq_self.mpr hnd]
    exact sortLex_singletons positions.length
  have hprob : problematicGroups types
      ((List.range positions.length).map (fun i => [i])) = [] := by
    unfold problematicGroups
    rw [List.filter_eq_nil_iff]
    intro g hg
    rcases List.mem_map.mp hg with ⟨i, hi, rfl⟩
    simp
  have hchosen : chosenIdx ((List.range positions.length).map (fun i => [i]))
      = List.range positions.length := by
    unfold chosenIdx
    rw [List.map_map]
    have hcomp : ((fun g : List ℕ => g.headD 0) ∘ fun i => [i]) = id := rfl
    rw [hcomp, List.map_id]
  unfold get_primitive
  rw [hbP]
  simp only [hpp, hrows, hratio, hwrong, hsort, hprob, hchosen]
  rw [if_neg (by simp)]
  rw [if_neg (by simp)]
  rw [map_getD_range]
  rw [show List.range positions.length = List.range types.length from by rw [hty]]
  rw [map_getD_range]
  rw [primLattice_id3]

/-- Witness for C10: a two-atom cP cell with separated atoms. -/
theorem c10_identity_on_primitive_symbols_witness :
    get_primitive ([[1,0,0],[0,1,0],[0,0,1]],
        [[0,0,0],[1/2,1/2,1/2]], [3,5]) "cP"
      = .ok (([[1,0,0],[0,1,0],[0,0,1]],
              [[0,0,0],[1/2,1/2,1/2]], [3,5]), (id3, id3)) := by
  refine c10_identity_on_primitive_symbols 1 0 0 0 1 0 0 0 1
      [[0,0,0],[1/2,1/2,1/2]] [3,5] "cP"
      (by simp) (of_decide_eq_true (by with_unfolding_all rfl)) rfl ?_
  intro i j hi hj hne
  have hi2 : i < 2 := by simpa using hi
  have hj2 : j < 2 := by simpa using hj
  interval_cases i <;> interval_cases j <;>
    first
      | omega
      | exact of_decide_eq_true (by with_unfolding_all rfl)
